import Mathlib

/-!
Verification of the attendance Session Ledger & Live-State Reconciliation
engine of the shop-access bot (source: `slack_bot_main.py`).

The embedding models:
  * timestamps as integers (seconds); a stored timestamp string is either
    parseable (`TS.good t`, `datetime.fromisoformat` succeeds) or not
    (`TS.bad s`, the parse raises);
  * ledger rows (`attendance.csv`) as `LedgerRow`, where `check_out = none`
    models the empty string (an open session);
  * the member registry (`members.csv`) as a list of `Member` in file order;
  * the in-memory `CURRENT_MEMBERS` set as a `Finset String`;
  * Python `round(x, n)` (banker's rounding) as `roundTo` over `ℚ`.
-/

namespace ShopBot

/-- A stored timestamp string: `good t` parses to the instant `t` (seconds),
`bad s` is an arbitrary string on which `datetime.fromisoformat` raises. -/
inductive TS where
  | good : Int → TS
  | bad : String → TS
deriving DecidableEq

/-- `datetime.fromisoformat` applied to a stored timestamp:
`some` on success, `none` when it raises `ValueError`/`TypeError`. -/
def parseTS : TS → Option Int
  | .good t => some t
  | .bad _ => none

/-- One row of `attendance.csv` (headers
`card_uid, member_name, check_in, check_out, hours, approved`).
`check_out = none` models an empty/whitespace `check_out` cell: the row is an
open session.  `hours` is the recorded duration, `approved` the raw cell. -/
structure LedgerRow where
  card_uid : String
  member_name : String
  check_in : TS
  check_out : Option TS
  hours : ℚ
  approved : String
deriving DecidableEq

/-- One row of `members.csv` as loaded by `load_members` (fields stripped).
`seniority` is the result of `int(...)` on the seniority cell: `some v` when
the cell parses, `none` when it is missing or unparsable. -/
structure Member where
  slack_id : String
  member_name : String
  card_uid : String
  seniority : Option Int
  lead_slack_id : String
deriving DecidableEq

/-- The bot's live state: the attendance ledger on disk plus the in-memory
`CURRENT_MEMBERS` set. -/
structure BotState where
  ledger : List LedgerRow
  current : Finset String
deriving DecidableEq

/-- `STALE_SESSION_HOURS = 12` from the configuration block. -/
def STALE_SESSION_HOURS : ℚ := 12

/-- `ADMIN_SLACK_ID` from the configuration block. -/
def ADMIN_SLACK_ID : String := "U07U7V298Q2"

/-- Python's `str.strip()`: drop leading and trailing whitespace.
(Structural recursion over the character list, so proofs can evaluate it.) -/
def stripStr (s : String) : String :=
  ⟨((s.data.dropWhile Char.isWhitespace).reverse.dropWhile Char.isWhitespace).reverse⟩

/-- Python's `str.lower()`: lowercase every character. -/
def lowerStr (s : String) : String := ⟨s.data.map Char.toLower⟩

/-- Python's `.strip().lower()` normalisation used for name comparisons. -/
def normName (s : String) : String := lowerStr (stripStr s)

/-- Row is open: `not row["check_out"].strip()`. -/
def isOpenB (r : LedgerRow) : Bool := r.check_out.isNone

/-- Python `round(q)` to an integer: round half to even (banker's rounding). -/
def roundHalfEven (q : ℚ) : ℤ :=
  let f : ℤ := ⌊q⌋
  if q - f < 1/2 then f
  else if q - f > 1/2 then f + 1
  else if f % 2 = 0 then f else f + 1

/-- Python `round(q, d)` where `k = 10^d`. -/
def roundTo (k : ℤ) (q : ℚ) : ℚ := (roundHalfEven (k * q) : ℚ) / k

/-- Python `round(q, 2)`. -/
def round2 (q : ℚ) : ℚ := roundTo 100 q

/-- Python `round(q, 1)`. -/
def round1 (q : ℚ) : ℚ := roundTo 10 q

/-- `get_open_session`: last row (reverse scan) matching the card with an
empty `check_out`. -/
def get_open_session (rows : List LedgerRow) (card_uid : String) : Option LedgerRow :=
  rows.reverse.find? (fun r => (r.card_uid == card_uid) && isOpenB r)

/-- Hours computed by `close_open_session`: elapsed seconds / 3600 rounded to
2 decimal places when the stored check-in parses, `0.0` otherwise. -/
def hoursOf (r : LedgerRow) (checkout_dt : Int) : ℚ :=
  match parseTS r.check_in with
  | some t1 => round2 (((checkout_dt - t1 : ℤ) : ℚ) / 3600)
  | none => 0

/-- The mutation `close_open_session` applies to the target row: set
`check_out` to now, record the hours, reset `approved` to `"False"`. -/
def closeRow (r : LedgerRow) (checkout_dt : Int) : LedgerRow :=
  { r with check_out := some (.good checkout_dt)
         , hours := hoursOf r checkout_dt
         , approved := "False" }

/-- The reverse index scan `for i in range(len(rows)-1, -1, -1)` of
`close_open_session`: close the last row satisfying `p`, returning the
`(hours, check_in)` pair and the updated row list, or `none` when no row
matches. -/
def closeLast (p : LedgerRow → Bool) (checkout_dt : Int) :
    List LedgerRow → Option ((ℚ × TS) × List LedgerRow)
  | [] => none
  | r :: l =>
    match closeLast p checkout_dt l with
    | some (info, l2) => some (info, r :: l2)
    | none =>
      if p r then some ((hoursOf r checkout_dt, r.check_in), closeRow r checkout_dt :: l)
      else none

/-- Predicate of the first lookup of `close_open_session`: open row with the
given card identifier. -/
def byCard (card_uid : String) (r : LedgerRow) : Bool :=
  (r.card_uid == card_uid) && isOpenB r

/-- Predicate of the fallback lookup of `close_open_session`: open row whose
stripped, lowercased member name matches. -/
def byName (member_name : String) (r : LedgerRow) : Bool :=
  (normName r.member_name == normName member_name) && isOpenB r

/-- `close_open_session`: find the most recent open session by `card_uid`,
falling back to `member_name`; mutate it and persist, or return
`(None, None)` leaving the ledger unchanged. -/
def close_open_session (rows : List LedgerRow) (card_uid member_name : String)
    (checkout_dt : Int) : Option (ℚ × TS) × List LedgerRow :=
  match closeLast (byCard card_uid) checkout_dt rows with
  | some (info, rows2) => (some info, rows2)
  | none =>
    match closeLast (byName member_name) checkout_dt rows with
    | some (info, rows2) => (some info, rows2)
    | none => (none, rows)

/-- The pending test of `approve_all_sessions` and `get_unapproved_sessions`:
`str(row.get("approved","")).lower() in ("false", "", "none")`. -/
def isPending (r : LedgerRow) : Bool :=
  ["false", "", "none"].contains (lowerStr r.approved)

/-- Row belongs to the member (stripped, lowercased name match). -/
def matchesName (member_name : String) (r : LedgerRow) : Bool :=
  normName r.member_name == normName member_name

/-- Per-row action of `approve_all_sessions`: matching pending rows get
`approved = "True"`, all others are untouched. -/
def approveRow (member_name : String) (r : LedgerRow) : LedgerRow :=
  if matchesName member_name r && isPending r then { r with approved := "True" } else r

/-- Result of `approve_all_sessions`: the stored ledger afterwards, the count
returned, and whether `write_attendance_rows` was invoked. -/
structure ApproveAllResult where
  ledger : List LedgerRow
  count : Nat
  wrote : Bool
deriving DecidableEq

/-- `approve_all_sessions`: flip every matching pending row to `"True"`,
count them, and persist once — only if the count is non-zero. -/
def approve_all_sessions (rows : List LedgerRow) (member_name : String) : ApproveAllResult :=
  let count := (rows.filter (fun r => matchesName member_name r && isPending r)).length
  if count = 0 then ⟨rows, 0, false⟩
  else ⟨rows.map (approveRow member_name), count, true⟩

/-- Age in hours used by `rebuild_current_members`:
`(now - check_in).total_seconds() / 3600`, with `age_hours = 0` when the
stored check-in fails to parse. -/
def ageQ (r : LedgerRow) (now : Int) : ℚ :=
  match parseTS r.check_in with
  | some t => ((now - t : ℤ) : ℚ) / 3600
  | none => 0

/-- The staleness test `age_hours > STALE_SESSION_HOURS`. -/
def isStaleAt (r : LedgerRow) (now : Int) : Bool :=
  decide (ageQ r now > STALE_SESSION_HOURS)

/-- The `for row in reversed(rows)` loop of `rebuild_current_members`,
threading the `seen_names` set.  Returns the `recovered` names, the `stale`
entries `(name, check_in, round(age_hours, 1))`, and the final `seen_names`.
Closed rows are skipped; only the most recent open row per (stripped) name is
acted on. -/
def rebuildScan (now : Int) : List LedgerRow → Finset String →
    List String × List (String × TS × ℚ) × Finset String
  | [], seen => ([], [], seen)
  | r :: rest, seen =>
    if r.check_out.isSome then rebuildScan now rest seen
    else
      let name := stripStr r.member_name
      if name ∈ seen then rebuildScan now rest seen
      else
        let out := rebuildScan now rest (insert name seen)
        if isStaleAt r now then
          (out.1, (name, r.check_in, round1 (ageQ r now)) :: out.2.1, out.2.2)
        else
          (name :: out.1, out.2.1, out.2.2)

/-- Result of `rebuild_current_members`: the `recovered` and `stale`
collections it returns, the `CURRENT_MEMBERS` contents afterwards, and the
ledger afterwards.  The source function contains no
`write_attendance_rows` call, so the ledger field is the input row list. -/
structure RebuildResult where
  recovered : List String
  stale : List (String × TS × ℚ)
  current : Finset String
  ledger : List LedgerRow
deriving DecidableEq

/-- `rebuild_current_members`, run at startup with `CURRENT_MEMBERS` empty:
scan the ledger newest-first, restore fresh open sessions to the set, flag
stale ones, write nothing. -/
def rebuild_current_members (rows : List LedgerRow) (now : Int) : RebuildResult :=
  let out := rebuildScan now rows.reverse ∅
  ⟨out.1, out.2.1, out.1.toFinset, rows⟩

/-- `get_seniority`: parse the seniority cell, defaulting to 5 (most junior)
on a missing/unparsable value or one outside `1..5`. -/
def get_seniority (m : Member) : ℤ :=
  match m.seniority with
  | some v => if v < 1 ∨ v > 5 then 5 else v
  | none => 5

/-- The `min(..., key=lambda m: (get_seniority(m), m["member_name"]))` key:
seniority rank then name, compared lexicographically. -/
def seniorityKey (m : Member) : Lex (ℤ × String) := toLex (get_seniority m, m.member_name)

/-- One comparison step of Python's `min`: keep the earlier element unless
the new one is strictly smaller under the key. -/
def pickMin (best x : Member) : Member :=
  if seniorityKey x < seniorityKey best then x else best

/-- Python `min(candidates, key=seniorityKey)`: the first element attaining
the minimal key (`<` is strict, so earlier elements win ties). -/
def minByKey : List Member → Option Member
  | [] => none
  | m :: rest => some (rest.foldl pickMin m)

/-- `find_most_senior_in_shop`: among registry members whose name is in
`CURRENT_MEMBERS` (minus the excluded name), the slack id of the most senior
(ties broken by name); `None` when no candidate exists. -/
def find_most_senior_in_shop (members : List Member) (current : Finset String)
    (exclude_name : String) : Option String :=
  let candidates := members.filter
    (fun m => decide (m.member_name ∈ current) && (m.member_name != exclude_name))
  (minByKey candidates).map (·.slack_id)

/-- The `name_to_member` dict comprehension of `find_notify_target`: keyed by
stripped, lowercased name; later registry entries overwrite earlier ones. -/
def lookup_by_norm_name (members : List Member) (key : String) : Option Member :=
  members.reverse.find? (fun m => normName m.member_name == key)

/-- The co-presence scan of `find_notify_target`: attendance rows of other,
registry-known members whose session overlaps the departing session within
the 24-hour lookback window; malformed timestamps are skipped. -/
def co_present_rows (rows : List LedgerRow) (members : List Member)
    (exclude_name : String) (session_start checkout_dt : Int) : List Member :=
  rows.filterMap (fun row =>
    let row_name := stripStr row.member_name
    if lowerStr row_name == normName exclude_name then none
    else
      match lookup_by_norm_name members (lowerStr row_name) with
      | none => none
      | some m =>
        match parseTS row.check_in with
        | none => none
        | some row_checkin =>
          if row_checkin < checkout_dt - 24 * 3600 then none
          else
            match row.check_out with
            | some ts =>
              match parseTS ts with
              | none => none
              | some row_checkout =>
                if row_checkin < checkout_dt ∧ row_checkout > session_start then some m
                else none
            | none => if row_checkin < checkout_dt then some m else none)

/-- `find_notify_target`: most senior co-present member in the lookback
window, else the departing member's lead when set, else the admin.  An
unparsable departing check-in short-circuits to lead-or-admin. -/
def find_notify_target (check_in_ts : TS) (checkout_dt : Int) (member : Member)
    (members : List Member) (rows : List LedgerRow) : String :=
  let lead_id := stripStr member.lead_slack_id
  match parseTS check_in_ts with
  | none => if lead_id ≠ "" then lead_id else ADMIN_SLACK_ID
  | some session_start =>
    match minByKey (co_present_rows rows members member.member_name session_start checkout_dt) with
    | some best => best.slack_id
    | none => if lead_id ≠ "" then lead_id else ADMIN_SLACK_ID

/-- The recipient selection of `handle_check_out` after a successful close:
someone still present → `find_most_senior_in_shop` (which may yield `None`);
shop empty → `find_notify_target` (always a handle). -/
def checkout_notify (current_after : Finset String) (members : List Member)
    (check_in_ts : TS) (checkout_dt : Int) (member : Member)
    (rows : List LedgerRow) : Option String :=
  if current_after.Nonempty then
    find_most_senior_in_shop members current_after member.member_name
  else
    some (find_notify_target check_in_ts checkout_dt member members rows)

/-- `is_authorized_approver`: approver known, target found by name, and the
approver is strictly more senior or is the target's designated lead. -/
def is_authorized_approver (approver_id target_name : String)
    (members : List Member) : Bool :=
  match members.find? (fun m => m.slack_id == approver_id) with
  | none => false
  | some approver =>
    match members.find? (fun m => normName m.member_name == normName target_name) with
    | none => false
    | some target =>
      decide (get_seniority approver < get_seniority target) ||
        (stripStr target.lead_slack_id == approver_id)

/-- Result of `handle_check_in`: refused (already checked in) or recorded,
reporting whether the shop was empty beforehand (the open-announcement
trigger). -/
inductive CheckInResult where
  | alreadyCheckedIn
  | ok (wasEmpty : Bool)
deriving DecidableEq

/-- The fresh row appended by `append_session`. -/
def newSessionRow (card_uid member_name : String) (check_in_dt : Int) : LedgerRow :=
  ⟨card_uid, member_name, .good check_in_dt, none, 0, "False"⟩

/-- `handle_check_in`: refuse when an open session exists for the card or the
member is already in `CURRENT_MEMBERS`; otherwise append a fresh open session
and add the member to the set. -/
def handle_check_in (st : BotState) (member : Member) (now : Int) :
    BotState × CheckInResult :=
  if (get_open_session st.ledger member.card_uid).isSome ∨ member.member_name ∈ st.current then
    (st, .alreadyCheckedIn)
  else
    (⟨st.ledger ++ [newSessionRow member.card_uid member.member_name now],
      insert member.member_name st.current⟩,
     .ok (decide (st.current = ∅)))

/-- Result of `handle_check_out`: session closed (with recorded hours and the
stored check-in), the self-heal reply (`was in CURRENT_MEMBERS but had no
open CSV session`), or the plain `not checked in` reply. -/
inductive CheckOutResult where
  | ok (hours : ℚ) (check_in : TS)
  | requiresReCheckIn
  | notCheckedIn
deriving DecidableEq

/-- Output of `handle_check_out`: new state, result, and the notification
recipient (`notify_id`), `none` when no checkout notification is produced. -/
structure COOut where
  state : BotState
  result : CheckOutResult
  notify : Option String
deriving DecidableEq

/-- `handle_check_out`: close via `close_open_session`; on failure self-heal
the presence set if it disagrees with the ledger; on success remove the
member from the set and pick the notification recipient. -/
def handle_check_out (st : BotState) (member : Member) (now : Int)
    (members : List Member) : COOut :=
  match close_open_session st.ledger member.card_uid member.member_name now with
  | (none, _) =>
    if member.member_name ∈ st.current then
      ⟨⟨st.ledger, st.current.erase member.member_name⟩, .requiresReCheckIn, none⟩
    else
      ⟨st, .notCheckedIn, none⟩
  | (some (hours, check_in_ts), rows2) =>
    let current2 := st.current.erase member.member_name
    ⟨⟨rows2, current2⟩, .ok hours check_in_ts,
     checkout_notify current2 members check_in_ts now member rows2⟩

/-- A check-in or check-out command. -/
inductive Cmd where
  | cin
  | cout
deriving DecidableEq

/-- One inbound command: the resolved member record, the registry loaded for
this command, the wall-clock time, and which command it is. -/
structure Event where
  member : Member
  registry : List Member
  time : Int
  cmd : Cmd

/-- State transition of one command (replies/notifications discarded). -/
def step (st : BotState) (e : Event) : BotState :=
  match e.cmd with
  | .cin => (handle_check_in st e.member e.time).1
  | .cout => (handle_check_out st e.member e.time e.registry).state

/-- Process a sequence of commands. -/
def run (st : BotState) (evs : List Event) : BotState := evs.foldl step st

/-- Names holding an open session in the ledger. -/
def openNames (rows : List LedgerRow) : Finset String :=
  ((rows.filter isOpenB).map (·.member_name)).toFinset

/-- Modelled from the spec: the set of member names that have an open,
non-stale session in the ledger at time `now` (the spec-side Live Presence
characterisation, to be compared with `CURRENT_MEMBERS`). -/
def specLivePresence (rows : List LedgerRow) (now : Int) : Finset String :=
  ((rows.filter (fun r => isOpenB r && !isStaleAt r now)).map (·.member_name)).toFinset

/-- Names of the stale entries reported by reconciliation. -/
def staleNameSet (stale : List (String × TS × ℚ)) : Finset String :=
  (stale.map (·.1)).toFinset

/-- Member names of the check-out commands of a trace. -/
def checkoutNames (evs : List Event) : Finset String :=
  ((evs.filter (fun e => e.cmd == .cout)).map (fun e => e.member.member_name)).toFinset

/-- Well-formedness of the open rows of a ledger, relative to a name-to-card
assignment `cardOf` and a universe `U` of member names in play: every open
row carries the card of its member, a stripped name, a name from `U`, and no
two open rows share a member name. -/
structure OpenRowsOK (cardOf : String → String) (U : Set String)
    (rows : List LedgerRow) : Prop where
  cards : ∀ r ∈ rows, r.check_out = none → r.card_uid = cardOf r.member_name
  stripped : ∀ r ∈ rows, r.check_out = none → stripStr r.member_name = r.member_name
  inU : ∀ r ∈ rows, r.check_out = none → r.member_name ∈ U
  nodup : (rows.filter isOpenB).Pairwise (fun a b => a.member_name ≠ b.member_name)

/-- A command's member record is consistent with `cardOf` and drawn from the
name universe `U`. -/
def EvOK (cardOf : String → String) (U : Set String) (e : Event) : Prop :=
  e.member.card_uid = cardOf e.member.member_name
  ∧ stripStr e.member.member_name = e.member.member_name
  ∧ e.member.member_name ∈ U

/-- The reconciliation invariant: `CURRENT_MEMBERS` is the open-session names
minus a residue `E` of stale-flagged names, the residue consists of names
still holding an open session, and the ledger stays well-formed. -/
structure InvC1 (cardOf : String → String) (U : Set String)
    (st : BotState) (E : Finset String) : Prop where
  cur_eq : st.current = openNames st.ledger \ E
  E_sub : E ⊆ openNames st.ledger
  rows_ok : OpenRowsOK cardOf U st.ledger

/-! ### Supporting lemmas -/

theorem get_open_session_isSome_iff (rows : List LedgerRow) (card_uid : String) :
    (get_open_session rows card_uid).isSome
      ↔ ∃ r ∈ rows, r.card_uid = card_uid ∧ r.check_out = none := by
  simp [get_open_session, List.find?_isSome, List.mem_reverse, isOpenB,
    Option.isNone_iff_eq_none, and_assoc]

/-! ### Claim C5 -/

/-- Claim C5: `handle_check_in` fails with `AlreadyCheckedIn` — leaving the
ledger and `CURRENT_MEMBERS` untouched — whenever the ledger already holds an
open session for the member's card identifier or the presence set already
marks the member present; either condition alone blocks the action, and when
neither holds the session is appended and the member added. -/
theorem c5_check_in_blocked (st : BotState) (m : Member) (now : Int) :
    ((∃ r ∈ st.ledger, r.card_uid = m.card_uid ∧ r.check_out = none)
        ∨ m.member_name ∈ st.current →
      handle_check_in st m now = (st, .alreadyCheckedIn))
    ∧ (¬((∃ r ∈ st.ledger, r.card_uid = m.card_uid ∧ r.check_out = none)
        ∨ m.member_name ∈ st.current) →
      handle_check_in st m now =
        (⟨st.ledger ++ [newSessionRow m.card_uid m.member_name now],
          insert m.member_name st.current⟩, .ok (decide (st.current = ∅)))) := by
  constructor
  · intro h
    rw [handle_check_in, if_pos]
    rcases h with h | h
    · exact Or.inl ((get_open_session_isSome_iff st.ledger m.card_uid).2 h)
    · exact Or.inr h
  · intro h
    rw [handle_check_in, if_neg]
    intro hc
    rcases hc with hc | hc
    · exact h (Or.inl ((get_open_session_isSome_iff st.ledger m.card_uid).1 hc))
    · exact h (Or.inr hc)

/-- Witness for C5: a member already in the presence set is refused even with
an empty ledger (the set check alone blocks). -/
theorem c5_witness :
    handle_check_in ⟨[], {"A"}⟩ ⟨"U1", "A", "c1", some 1, ""⟩ 0
      = (⟨[], {"A"}⟩, .alreadyCheckedIn) :=
  (c5_check_in_blocked ⟨[], {"A"}⟩ ⟨"U1", "A", "c1", some 1, ""⟩ 0).1 (Or.inr (by decide))

/-! ### Claim C6 -/

/-- Claim C6: `is_authorized_approver` succeeds iff the approver's seniority
rank is strictly lower (more senior) than the target's or the approver's id
equals the target's registered lead id; an unknown approver or an unmatched
target name yields `false`; and a rank-2 approver acting on a rank-1 member
is refused unless they are that member's lead. -/
theorem c6_is_authorized (registry : List Member) (approver_id target_name : String) :
    (registry.find? (fun m => m.slack_id == approver_id) = none →
      is_authorized_approver approver_id target_name registry = false)
    ∧ (registry.find? (fun m => normName m.member_name == normName target_name) = none →
      is_authorized_approver approver_id target_name registry = false)
    ∧ (∀ a t, registry.find? (fun m => m.slack_id == approver_id) = some a →
        registry.find? (fun m => normName m.member_name == normName target_name) = some t →
        (is_authorized_approver approver_id target_name registry = true ↔
          (get_seniority a < get_seniority t ∨ stripStr t.lead_slack_id = approver_id)))
    ∧ (∀ a t, registry.find? (fun m => m.slack_id == approver_id) = some a →
        registry.find? (fun m => normName m.member_name == normName target_name) = some t →
        get_seniority a = 2 → get_seniority t = 1 →
        stripStr t.lead_slack_id ≠ approver_id →
        is_authorized_approver approver_id target_name registry = false) := by
  refine ⟨?_, ?_, ?_, ?_⟩
  · intro h
    simp [is_authorized_approver, h]
  · intro h
    rw [is_authorized_approver]
    cases hfa : registry.find? (fun m => m.slack_id == approver_id) with
    | none => rfl
    | some a => rw [h]
  · intro a t ha ht
    rw [is_authorized_approver, ha, ht]
    simp
  · intro a t ha ht hsa hst hlead
    rw [is_authorized_approver, ha, ht]
    simp only [Bool.or_eq_false_iff, decide_eq_false_iff_not, not_lt, beq_eq_false_iff_ne]
    exact ⟨by rw [hsa, hst]; norm_num, hlead⟩

/-- Witness for C6: a rank-2 approver on a rank-1 target who is not the
target's lead is refused. -/
theorem c6_witness :
    is_authorized_approver "U2" "Tess"
      [⟨"U2", "Ann", "c2", some 2, ""⟩, ⟨"U9", "Tess", "c9", some 1, "U7"⟩] = false :=
  (c6_is_authorized [⟨"U2", "Ann", "c2", some 2, ""⟩, ⟨"U9", "Tess", "c9", some 1, "U7"⟩]
      "U2" "Tess").2.2.2 ⟨"U2", "Ann", "c2", some 2, ""⟩ ⟨"U9", "Tess", "c9", some 1, "U7"⟩
    (by decide) (by decide) (by decide) (by decide) (by decide)

/-! ### Claim C8 -/

/-- Claim C8: `approve_all_sessions` flips every pending session of the
member to approved in a single persisted write and returns the number
changed; with zero pending sessions it returns 0 and performs no write,
leaving the stored ledger identical. -/
theorem c8_approve_all (rows : List LedgerRow) (member_name : String) :
    (approve_all_sessions rows member_name).count
        = (rows.filter (fun r => matchesName member_name r && isPending r)).length
    ∧ ((approve_all_sessions rows member_name).count = 0 →
        (approve_all_sessions rows member_name).ledger = rows
        ∧ (approve_all_sessions rows member_name).wrote = false)
    ∧ ((approve_all_sessions rows member_name).count ≠ 0 →
        (approve_all_sessions rows member_name).ledger = rows.map (approveRow member_name)
        ∧ (approve_all_sessions rows member_name).wrote = true)
    ∧ (∀ r ∈ (approve_all_sessions rows member_name).ledger,
        matchesName member_name r = true → isPending r = false)
    ∧ (approve_all_sessions rows member_name).ledger.length = rows.length := by
  rw [approve_all_sessions]
  by_cases h0 :
      (rows.filter (fun r => matchesName member_name r && isPending r)).length = 0
  · rw [if_pos h0]
    have hnil : rows.filter (fun r => matchesName member_name r && isPending r) = [] :=
      List.length_eq_zero.1 h0
    refine ⟨h0.symm, fun _ => ⟨rfl, rfl⟩, fun h => absurd rfl h, ?_, rfl⟩
    intro r hr hm
    have := List.filter_eq_nil_iff.1 hnil r hr
    simpa [hm] using this
  · rw [if_neg h0]
    refine ⟨rfl, fun h => absurd h h0, fun _ => ⟨rfl, rfl⟩, ?_, by simp⟩
    intro r hr hm
    rcases List.mem_map.1 hr with ⟨x, hx, hxr⟩
    subst hxr
    rw [approveRow] at hm ⊢
    by_cases hc : matchesName member_name x && isPending x
    · rw [if_pos hc] at hm ⊢
      rfl
    · rw [if_neg hc] at hm ⊢
      simp only [Bool.and_eq_true, not_and] at hc
      exact Bool.eq_false_iff.2 (hc hm)

/-- Witness for C8: a two-row ledger with one pending session for the member
(one already approved) yields count 1 with the pending row flipped, and a
member with no sessions yields 0 with the ledger untouched. -/
theorem c8_witness :
    (approve_all_sessions [⟨"c1", "A", .good 0, some (.good 5), 1, "False"⟩] "A").count = 1
    ∧ (approve_all_sessions [⟨"c1", "A", .good 0, some (.good 5), 1, "False"⟩] "B").ledger
        = [⟨"c1", "A", .good 0, some (.good 5), 1, "False"⟩] := by
  refine ⟨?_, ?_⟩
  · rw [(c8_approve_all [⟨"c1", "A", .good 0, some (.good 5), 1, "False"⟩] "A").1]
    decide
  · exact ((c8_approve_all [⟨"c1", "A", .good 0, some (.good 5), 1, "False"⟩] "B").2.1
      (by decide)).1

/-! ### Lemmas about `closeLast` and `close_open_session` -/

theorem byCard_eq_true_iff (card_uid : String) (x : LedgerRow) :
    byCard card_uid x = true ↔ x.card_uid = card_uid ∧ x.check_out = none := by
  simp [byCard, isOpenB, Option.isNone_iff_eq_none]

theorem byCard_eq_false_iff (card_uid : String) (x : LedgerRow) :
    byCard card_uid x = false ↔ (x.check_out = none → x.card_uid ≠ card_uid) := by
  rw [← Bool.not_eq_true, byCard_eq_true_iff]
  tauto

theorem byName_eq_true_iff (member_name : String) (x : LedgerRow) :
    byName member_name x = true
      ↔ normName x.member_name = normName member_name ∧ x.check_out = none := by
  simp [byName, isOpenB, Option.isNone_iff_eq_none]

theorem byName_eq_false_iff (member_name : String) (x : LedgerRow) :
    byName member_name x = false
      ↔ (x.check_out = none → normName x.member_name ≠ normName member_name) := by
  rw [← Bool.not_eq_true, byName_eq_true_iff]
  tauto

theorem closeLast_eq_none_iff (p : LedgerRow → Bool) (checkout_dt : Int)
    (l : List LedgerRow) :
    closeLast p checkout_dt l = none ↔ ∀ r ∈ l, p r = false := by
  induction l with
  | nil => simp [closeLast]
  | cons r l ih =>
    rw [closeLast]
    cases h : closeLast p checkout_dt l with
    | some out => simp [← ih, h]
    | none =>
      rw [ih] at h
      cases hp : p r with
      | true => simp [hp]
      | false =>
        rw [if_neg (by simp [hp])]
        constructor
        · intro _ x hx
          rcases List.mem_cons.1 hx with rfl | hx
          · exact hp
          · exact h x hx
        · intro _
          rfl

theorem closeLast_decomp (p : LedgerRow → Bool) (checkout_dt : Int)
    (pre : List LedgerRow) (r : LedgerRow) (post : List LedgerRow)
    (hp : p r = true) (hpost : ∀ x ∈ post, p x = false) :
    closeLast p checkout_dt (pre ++ r :: post)
      = some ((hoursOf r checkout_dt, r.check_in),
              pre ++ closeRow r checkout_dt :: post) := by
  induction pre with
  | nil =>
    rw [List.nil_append, closeLast, (closeLast_eq_none_iff p checkout_dt post).2 hpost,
      if_pos hp]
    rfl
  | cons a pre ih =>
    rw [List.cons_append, closeLast, ih]
    rfl

theorem close_open_session_card (rows : List LedgerRow) (card_uid member_name : String)
    (checkout_dt : Int) (pre : List LedgerRow) (r : LedgerRow) (post : List LedgerRow)
    (hd : rows = pre ++ r :: post) (hopen : r.check_out = none)
    (hcard : r.card_uid = card_uid)
    (hpost : ∀ x ∈ post, x.check_out = none → x.card_uid ≠ card_uid) :
    close_open_session rows card_uid member_name checkout_dt
      = (some (hoursOf r checkout_dt, r.check_in),
         pre ++ closeRow r checkout_dt :: post) := by
  subst hd
  rw [close_open_session,
    closeLast_decomp (byCard card_uid) checkout_dt pre r post
      ((byCard_eq_true_iff card_uid r).2 ⟨hcard, hopen⟩)
      (fun x hx => (byCard_eq_false_iff card_uid x).2 (hpost x hx))]

theorem close_open_session_name (rows : List LedgerRow) (card_uid member_name : String)
    (checkout_dt : Int) (pre : List LedgerRow) (r : LedgerRow) (post : List LedgerRow)
    (hnocard : ∀ x ∈ rows, x.check_out = none → x.card_uid ≠ card_uid)
    (hd : rows = pre ++ r :: post) (hopen : r.check_out = none)
    (hname : normName r.member_name = normName member_name)
    (hpost : ∀ x ∈ post, x.check_out = none →
      normName x.member_name ≠ normName member_name) :
    close_open_session rows card_uid member_name checkout_dt
      = (some (hoursOf r checkout_dt, r.check_in),
         pre ++ closeRow r checkout_dt :: post) := by
  subst hd
  rw [close_open_session,
    (closeLast_eq_none_iff (byCard card_uid) checkout_dt _).2
      (fun x hx => (byCard_eq_false_iff card_uid x).2 (hnocard x hx)),
    closeLast_decomp (byName member_name) checkout_dt pre r post
      ((byName_eq_true_iff member_name r).2 ⟨hname, hopen⟩)
      (fun x hx => (byName_eq_false_iff member_name x).2 (hpost x hx))]

theorem close_open_session_none (rows : List LedgerRow) (card_uid member_name : String)
    (checkout_dt : Int)
    (h : ∀ x ∈ rows, x.check_out = none →
      x.card_uid ≠ card_uid ∧ normName x.member_name ≠ normName member_name) :
    close_open_session rows card_uid member_name checkout_dt = (none, rows) := by
  rw [close_open_session,
    (closeLast_eq_none_iff (byCard card_uid) checkout_dt _).2
      (fun x hx => (byCard_eq_false_iff card_uid x).2 (fun ho => (h x hx ho).1)),
    (closeLast_eq_none_iff (byName member_name) checkout_dt _).2
      (fun x hx => (byName_eq_false_iff member_name x).2 (fun ho => (h x hx ho).2))]

/-! ### Claim C4 -/

/-- Claim C4: `checkOut` closes the most recent (highest-index) open session
by card identifier, falling back to the most recent open session by
case-insensitive member name; when neither lookup finds an open session, a
member still marked present is removed from the set with the
re-check-in inconsistency report, an absent member gets `NotCheckedIn`, and
in both failure cases the ledger is unchanged. -/
theorem c4_checkout_lookup (st : BotState) (m : Member) (now : Int)
    (registry : List Member) :
    ((∀ r ∈ st.ledger, r.check_out = none →
        r.card_uid ≠ m.card_uid ∧ normName r.member_name ≠ normName m.member_name) →
      (m.member_name ∈ st.current →
        handle_check_out st m now registry
          = ⟨⟨st.ledger, st.current.erase m.member_name⟩, .requiresReCheckIn, none⟩)
      ∧ (m.member_name ∉ st.current →
        handle_check_out st m now registry = ⟨st, .notCheckedIn, none⟩))
    ∧ (∀ pre r post, st.ledger = pre ++ r :: post → r.check_out = none →
        r.card_uid = m.card_uid →
        (∀ x ∈ post, x.check_out = none → x.card_uid ≠ m.card_uid) →
        (handle_check_out st m now registry).state
            = ⟨pre ++ closeRow r now :: post, st.current.erase m.member_name⟩
        ∧ (handle_check_out st m now registry).result = .ok (hoursOf r now) r.check_in)
    ∧ ((∀ x ∈ st.ledger, x.check_out = none → x.card_uid ≠ m.card_uid) →
       ∀ pre r post, st.ledger = pre ++ r :: post → r.check_out = none →
        normName r.member_name = normName m.member_name →
        (∀ x ∈ post, x.check_out = none →
          normName x.member_name ≠ normName m.member_name) →
        (handle_check_out st m now registry).state
            = ⟨pre ++ closeRow r now :: post, st.current.erase m.member_name⟩
        ∧ (handle_check_out st m now registry).result
            = .ok (hoursOf r now) r.check_in) := by
  refine ⟨?_, ?_, ?_⟩
  · intro h
    have hclose := close_open_session_none st.ledger m.card_uid m.member_name now h
    constructor
    · intro hmem
      simp only [handle_check_out, hclose, if_pos hmem]
    · intro hmem
      simp only [handle_check_out, hclose, if_neg hmem]
  · intro pre r post hd hopen hcard hpost
    have hclose := close_open_session_card st.ledger m.card_uid m.member_name now
      pre r post hd hopen hcard hpost
    constructor <;> simp only [handle_check_out, hclose]
  · intro hnocard pre r post hd hopen hname hpost
    have hclose := close_open_session_name st.ledger m.card_uid m.member_name now
      pre r post hnocard hd hopen hname hpost
    constructor <;> simp only [handle_check_out, hclose]

/-- Witness for C4: with an empty ledger and the member still in the presence
set, checkout self-heals (clears the member, reports the inconsistency) and
the ledger stays empty. -/
theorem c4_witness :
    handle_check_out ⟨[], {"A"}⟩ ⟨"U1", "A", "c1", some 1, ""⟩ 0 []
      = ⟨⟨[], ({"A"} : Finset String).erase "A"⟩, .requiresReCheckIn, none⟩ :=
  ((c4_checkout_lookup ⟨[], {"A"}⟩ ⟨"U1", "A", "c1", some 1, ""⟩ 0 []).1
    (by intro r hr; simp at hr)).1 (by decide)

/-! ### Claim C9 -/

theorem roundHalfEven_nonneg (q : ℚ) (hq : 0 ≤ q) : 0 ≤ roundHalfEven q := by
  have hf : (0 : ℤ) ≤ ⌊q⌋ := Int.floor_nonneg.2 hq
  rw [roundHalfEven]
  split
  · exact hf
  · split
    · omega
    · split <;> omega

theorem round2_nonneg (q : ℚ) (hq : 0 ≤ q) : 0 ≤ round2 q := by
  rw [round2, roundTo]
  apply div_nonneg _ (by norm_num)
  exact_mod_cast roundHalfEven_nonneg _ (by positivity)

/-- Claim C9: for a session closed by checkout whose stored check-in parses,
the recorded duration is the wall-clock difference in seconds divided by
3600, rounded to 2 decimal places, and it is non-negative whenever the
checkout instant is at or after the check-in instant. -/
theorem c9_duration (rows : List LedgerRow) (card_uid member_name : String)
    (now : Int) (pre : List LedgerRow) (r : LedgerRow) (post : List LedgerRow)
    (t1 : Int)
    (hd : rows = pre ++ r :: post) (hopen : r.check_out = none)
    (hcard : r.card_uid = card_uid)
    (hpost : ∀ x ∈ post, x.check_out = none → x.card_uid ≠ card_uid)
    (hparse : parseTS r.check_in = some t1) (hle : t1 ≤ now) :
    (close_open_session rows card_uid member_name now).1
        = some (round2 (((now - t1 : ℤ) : ℚ) / 3600), r.check_in)
    ∧ (close_open_session rows card_uid member_name now).2
        = pre ++ closeRow r now :: post
    ∧ (closeRow r now).hours = round2 (((now - t1 : ℤ) : ℚ) / 3600)
    ∧ 0 ≤ round2 (((now - t1 : ℤ) : ℚ) / 3600) := by
  have hhours : hoursOf r now = round2 (((now - t1 : ℤ) : ℚ) / 3600) := by
    rw [hoursOf, hparse]
  have hclose := close_open_session_card rows card_uid member_name now
    pre r post hd hopen hcard hpost
  refine ⟨by rw [hclose, hhours], by rw [hclose], by rw [closeRow, hhours], ?_⟩
  apply round2_nonneg
  have : (0 : ℚ) ≤ ((now - t1 : ℤ) : ℚ) := by exact_mod_cast Int.sub_nonneg.2 hle
  positivity

/-- Witness for C9: check-in at 0, check-out 90 minutes (5400 s) later gives
a recorded duration of exactly 1.5 hours. -/
theorem c9_witness :
    (close_open_session [⟨"c1", "A", .good 0, none, 0, "False"⟩] "c1" "A" 5400).1
        = some ((3 : ℚ) / 2, .good 0)
    ∧ (0 : ℚ) ≤ 3 / 2 := by
  have h := c9_duration [⟨"c1", "A", .good 0, none, 0, "False"⟩] "c1" "A" 5400
    [] ⟨"c1", "A", .good 0, none, 0, "False"⟩ [] 0 rfl rfl rfl
    (by intro x hx; simp at hx) rfl (by norm_num)
  have hval : round2 (((5400 - 0 : ℤ) : ℚ) / 3600) = 3 / 2 := by
    norm_num [round2, roundTo, roundHalfEven]
  exact ⟨by rw [h.1, hval], by rw [← hval]; exact h.2.2.2⟩

/-! ### Lemmas about `rebuildScan` -/

theorem rebuildScan_cons_closed (now : Int) (r : LedgerRow) (rest : List LedgerRow)
    (seen : Finset String) (h : r.check_out.isSome = true) :
    rebuildScan now (r :: rest) seen = rebuildScan now rest seen := by
  simp [rebuildScan, h]

theorem rebuildScan_cons_seen (now : Int) (r : LedgerRow) (rest : List LedgerRow)
    (seen : Finset String) (h : r.check_out.isSome = false)
    (hs : stripStr r.member_name ∈ seen) :
    rebuildScan now (r :: rest) seen = rebuildScan now rest seen := by
  simp [rebuildScan, h, hs]

theorem rebuildScan_cons_stale (now : Int) (r : LedgerRow) (rest : List LedgerRow)
    (seen : Finset String) (h : r.check_out.isSome = false)
    (hs : stripStr r.member_name ∉ seen) (hst : isStaleAt r now = true) :
    rebuildScan now (r :: rest) seen =
      ((rebuildScan now rest (insert (stripStr r.member_name) seen)).1,
       (stripStr r.member_name, r.check_in, round1 (ageQ r now)) ::
         (rebuildScan now rest (insert (stripStr r.member_name) seen)).2.1,
       (rebuildScan now rest (insert (stripStr r.member_name) seen)).2.2) := by
  simp [rebuildScan, h, hs, hst]

theorem rebuildScan_cons_fresh (now : Int) (r : LedgerRow) (rest : List LedgerRow)
    (seen : Finset String) (h : r.check_out.isSome = false)
    (hs : stripStr r.member_name ∉ seen) (hst : isStaleAt r now = false) :
    rebuildScan now (r :: rest) seen =
      (stripStr r.member_name ::
         (rebuildScan now rest (insert (stripStr r.member_name) seen)).1,
       (rebuildScan now rest (insert (stripStr r.member_name) seen)).2.1,
       (rebuildScan now rest (insert (stripStr r.member_name) seen)).2.2) := by
  simp [rebuildScan, h, hs, hst]

theorem rebuildScan_append (now : Int) (a b : List LedgerRow) (seen : Finset String) :
    rebuildScan now (a ++ b) seen =
      ((rebuildScan now a seen).1
          ++ (rebuildScan now b (rebuildScan now a seen).2.2).1,
       (rebuildScan now a seen).2.1
          ++ (rebuildScan now b (rebuildScan now a seen).2.2).2.1,
       (rebuildScan now b (rebuildScan now a seen).2.2).2.2) := by
  induction a generalizing seen with
  | nil => simp [rebuildScan]
  | cons r rest ih =>
    by_cases hclosed : r.check_out.isSome = true
    · rw [List.cons_append, rebuildScan_cons_closed now r _ seen hclosed,
        rebuildScan_cons_closed now r rest seen hclosed, ih]
    · have hopen : r.check_out.isSome = false := by simpa using hclosed
      by_cases hseen : stripStr r.member_name ∈ seen
      · rw [List.cons_append, rebuildScan_cons_seen now r _ seen hopen hseen,
          rebuildScan_cons_seen now r rest seen hopen hseen, ih]
      · by_cases hst : isStaleAt r now = true
        · rw [List.cons_append, rebuildScan_cons_stale now r _ seen hopen hseen hst,
            rebuildScan_cons_stale now r rest seen hopen hseen hst, ih]
          simp
        · have hst2 : isStaleAt r now = false := by simpa using hst
          rw [List.cons_append, rebuildScan_cons_fresh now r _ seen hopen hseen hst2,
            rebuildScan_cons_fresh now r rest seen hopen hseen hst2, ih]
          simp

theorem rebuildScan_seen_eq (now : Int) (l : List LedgerRow) (seen : Finset String) :
    (rebuildScan now l seen).2.2
      = seen ∪ ((l.filter isOpenB).map (fun r => stripStr r.member_name)).toFinset := by
  induction l generalizing seen with
  | nil => simp [rebuildScan]
  | cons r rest ih =>
    by_cases hclosed : r.check_out.isSome = true
    · rw [rebuildScan_cons_closed now r rest seen hclosed, ih]
      have hob : isOpenB r = false := by
        simp [isOpenB, Option.isNone_iff_eq_none, ← Option.isSome_iff_ne_none, hclosed]
      simp [List.filter_cons, hob]
    · have hopen : r.check_out.isSome = false := by simpa using hclosed
      have hnone : r.check_out = none := Option.not_isSome_iff_eq_none.1 (by simp [hopen])
      have hob : isOpenB r = true := by simp [isOpenB, hnone]
      by_cases hseen : stripStr r.member_name ∈ seen
      · rw [rebuildScan_cons_seen now r rest seen hopen hseen, ih]
        rw [List.filter_cons, if_pos (by simp [hob]), List.map_cons, List.toFinset_cons,
          Finset.union_insert, Finset.insert_eq_self.2 (Finset.mem_union_left _ hseen)]
      · have hgoal : (rebuildScan now rest (insert (stripStr r.member_name) seen)).2.2
            = seen ∪ ((List.filter isOpenB (r :: rest)).map
              (fun r => stripStr r.member_name)).toFinset := by
          rw [ih]
          rw [List.filter_cons, if_pos (by simp [hob]), List.map_cons, List.toFinset_cons,
            Finset.union_insert, Finset.insert_union]
        by_cases hst : isStaleAt r now = true
        · rw [rebuildScan_cons_stale now r rest seen hopen hseen hst]
          exact hgoal
        · rw [rebuildScan_cons_fresh now r rest seen hopen hseen (by simpa using hst)]
          exact hgoal

theorem rebuildScan_stale_not_seen (now : Int) (l : List LedgerRow) (seen : Finset String) :
    ∀ e ∈ (rebuildScan now l seen).2.1, e.1 ∉ seen := by
  induction l generalizing seen with
  | nil => simp [rebuildScan]
  | cons r rest ih =>
    by_cases hclosed : r.check_out.isSome = true
    · rw [rebuildScan_cons_closed now r rest seen hclosed]
      exact ih seen
    · have hopen : r.check_out.isSome = false := by simpa using hclosed
      by_cases hseen : stripStr r.member_name ∈ seen
      · rw [rebuildScan_cons_seen now r rest seen hopen hseen]
        exact ih seen
      · have htail : ∀ e ∈ (rebuildScan now rest (insert (stripStr r.member_name) seen)).2.1,
            e.1 ∉ seen := by
          intro e he
          have := ih (insert (stripStr r.member_name) seen) e he
          exact fun hx => this (Finset.mem_insert_of_mem hx)
        by_cases hst : isStaleAt r now = true
        · rw [rebuildScan_cons_stale now r rest seen hopen hseen hst]
          intro e he
          rcases List.mem_cons.1 he with rfl | he
          · exact hseen
          · exact htail e he
        · rw [rebuildScan_cons_fresh now r rest seen hopen hseen (by simpa using hst)]
          exact htail

theorem rebuildScan_stale_mem (now : Int) (l : List LedgerRow) (seen : Finset String) :
    ∀ e ∈ (rebuildScan now l seen).2.1,
      ∃ r ∈ l, r.check_out = none ∧ e.1 = stripStr r.member_name := by
  induction l generalizing seen with
  | nil => simp [rebuildScan]
  | cons r rest ih =>
    by_cases hclosed : r.check_out.isSome = true
    · rw [rebuildScan_cons_closed now r rest seen hclosed]
      intro e he
      rcases ih seen e he with ⟨x, hx, hxo, hxe⟩
      exact ⟨x, List.mem_cons_of_mem r hx, hxo, hxe⟩
    · have hopen : r.check_out.isSome = false := by simpa using hclosed
      have hnone : r.check_out = none := Option.not_isSome_iff_eq_none.1 (by simp [hopen])
      by_cases hseen : stripStr r.member_name ∈ seen
      · rw [rebuildScan_cons_seen now r rest seen hopen hseen]
        intro e he
        rcases ih seen e he with ⟨x, hx, hxo, hxe⟩
        exact ⟨x, List.mem_cons_of_mem r hx, hxo, hxe⟩
      · have htail : ∀ e ∈ (rebuildScan now rest (insert (stripStr r.member_name) seen)).2.1,
            ∃ x ∈ r :: rest, x.check_out = none ∧ e.1 = stripStr x.member_name := by
          intro e he
          rcases ih (insert (stripStr r.member_name) seen) e he with ⟨x, hx, hxo, hxe⟩
          exact ⟨x, List.mem_cons_of_mem r hx, hxo, hxe⟩
        by_cases hst : isStaleAt r now = true
        · rw [rebuildScan_cons_stale now r rest seen hopen hseen hst]
          intro e he
          rcases List.mem_cons.1 he with rfl | he
          · exact ⟨r, List.mem_cons_self r rest, hnone, rfl⟩
          · exact htail e he
        · rw [rebuildScan_cons_fresh now r rest seen hopen hseen (by simpa using hst)]
          exact htail

/-! ### Claim C2 -/

/-- Claim C2: a ledger with exactly two open sessions, one over the 12-hour
threshold and one under it, reconciles to: the fresh member recovered into
the presence set, the stale member reported (with check-in and rounded age)
and absent, and every ledger row left unmodified. -/
theorem c2_reconcile (r1 r2 : LedgerRow) (now t1 t2 : Int)
    (ho1 : r1.check_out = none) (ho2 : r2.check_out = none)
    (hp1 : parseTS r1.check_in = some t1) (hp2 : parseTS r2.check_in = some t2)
    (hstale : ((now - t1 : ℤ) : ℚ) / 3600 > STALE_SESSION_HOURS)
    (hfresh : ¬(((now - t2 : ℤ) : ℚ) / 3600 > STALE_SESSION_HOURS))
    (hnames : stripStr r1.member_name ≠ stripStr r2.member_name) :
    rebuild_current_members [r1, r2] now
      = ⟨[stripStr r2.member_name],
         [(stripStr r1.member_name, r1.check_in, round1 (((now - t1 : ℤ) : ℚ) / 3600))],
         {stripStr r2.member_name}, [r1, r2]⟩ := by
  have hage1 : ageQ r1 now = ((now - t1 : ℤ) : ℚ) / 3600 := by rw [ageQ, hp1]
  have hage2 : ageQ r2 now = ((now - t2 : ℤ) : ℚ) / 3600 := by rw [ageQ, hp2]
  have hst1 : isStaleAt r1 now = true := by
    rw [isStaleAt, hage1]
    exact decide_eq_true hstale
  have hst2 : isStaleAt r2 now = false := by
    rw [isStaleAt, hage2]
    exact decide_eq_false hfresh
  rw [rebuild_current_members]
  have hrev : ([r1, r2] : List LedgerRow).reverse = [r2, r1] := by rfl
  rw [hrev,
    rebuildScan_cons_fresh now r2 [r1] ∅ (by simp [ho2]) (by simp) hst2,
    rebuildScan_cons_stale now r1 [] _ (by simp [ho1]) (by simp [hnames]) hst1]
  simp [rebuildScan, hage1]

/-- Witness for C2: a 20-hour-old and a 1-hour-old open session. -/
theorem c2_witness :
    rebuild_current_members
        [⟨"c1", "Alice", .good 0, none, 0, "False"⟩,
         ⟨"c2", "Bob", .good 68400, none, 0, "False"⟩] 72000
      = ⟨[stripStr "Bob"],
         [(stripStr "Alice", .good 0, round1 (((72000 - 0 : ℤ) : ℚ) / 3600))],
         {stripStr "Bob"},
         [⟨"c1", "Alice", .good 0, none, 0, "False"⟩,
          ⟨"c2", "Bob", .good 68400, none, 0, "False"⟩]⟩ :=
  c2_reconcile ⟨"c1", "Alice", .good 0, none, 0, "False"⟩
    ⟨"c2", "Bob", .good 68400, none, 0, "False"⟩ 72000 0 68400
    rfl rfl rfl rfl (by norm_num [STALE_SESSION_HOURS])
    (by norm_num [STALE_SESSION_HOURS]) (by decide)

/-! ### Claim C10 -/

/-- Claim C10: during reconciliation an open session whose stored check-in
fails to parse gets age 0: its member is recovered into the presence set and
is never reported stale, however old the row may really be. -/
theorem c10_bad_timestamp (l1 l2 : List LedgerRow) (r : LedgerRow) (s : String)
    (now : Int)
    (hopen : r.check_out = none) (hbad : r.check_in = .bad s)
    (hlater : ∀ x ∈ l2, x.check_out = none →
      stripStr x.member_name ≠ stripStr r.member_name) :
    stripStr r.member_name ∈ (rebuild_current_members (l1 ++ r :: l2) now).recovered
    ∧ stripStr r.member_name ∈ (rebuild_current_members (l1 ++ r :: l2) now).current
    ∧ ∀ e ∈ (rebuild_current_members (l1 ++ r :: l2) now).stale,
        e.1 ≠ stripStr r.member_name := by
  have hst : isStaleAt r now = false := by
    rw [isStaleAt, ageQ, hbad]
    rw [parseTS]
    exact decide_eq_false (by norm_num [STALE_SESSION_HOURS])
  have hrev : (l1 ++ r :: l2).reverse = l2.reverse ++ r :: l1.reverse := by
    rw [List.reverse_append, List.reverse_cons, List.append_assoc, List.singleton_append]
  have hnseen : stripStr r.member_name ∉ (rebuildScan now l2.reverse ∅).2.2 := by
    rw [rebuildScan_seen_eq]
    intro hmem
    rcases Finset.mem_union.1 hmem with h | h
    · exact absurd h (Finset.not_mem_empty _)
    · rcases List.mem_toFinset.1 h with h
      rcases List.mem_map.1 h with ⟨x, hx, hxe⟩
      rcases List.mem_filter.1 hx with ⟨hxl, hxo⟩
      exact hlater x (List.mem_reverse.1 hxl)
        (by simpa [isOpenB, Option.isNone_iff_eq_none] using hxo) hxe
  rw [rebuild_current_members, hrev, rebuildScan_append,
    rebuildScan_cons_fresh now r l1.reverse _ (by simp [hopen]) hnseen hst]
  refine ⟨?_, ?_, ?_⟩
  · exact List.mem_append_right _ (List.mem_cons_self _ _)
  · exact List.mem_toFinset.2 (List.mem_append_right _ (List.mem_cons_self _ _))
  · intro e he
    rcases List.mem_append.1 he with he | he
    · rcases rebuildScan_stale_mem now l2.reverse ∅ e he with ⟨x, hx, hxo, hxe⟩
      rw [hxe]
      exact hlater x (List.mem_reverse.1 hx) hxo
    · have := rebuildScan_stale_not_seen now l1.reverse
        (insert (stripStr r.member_name) (rebuildScan now l2.reverse ∅).2.2) e he
      exact fun hx => this (hx ▸ Finset.mem_insert_self _ _)

/-- Witness for C10: a single open row with an unparsable check-in is
recovered, never flagged stale. -/
theorem c10_witness :
    stripStr "A" ∈ (rebuild_current_members
        [⟨"c1", "A", .bad "garbage", none, 0, "False"⟩] 999999999).recovered
    ∧ stripStr "A" ∈ (rebuild_current_members
        [⟨"c1", "A", .bad "garbage", none, 0, "False"⟩] 999999999).current := by
  have h := c10_bad_timestamp [] [] ⟨"c1", "A", .bad "garbage", none, 0, "False"⟩
    "garbage" 999999999 rfl rfl (by intro x hx; simp at hx)
  exact ⟨h.1, h.2.1⟩

/-! ### Lemmas about `minByKey` -/

theorem foldl_pickMin_mem (b : Member) (l : List Member) :
    l.foldl pickMin b ∈ b :: l := by
  induction l generalizing b with
  | nil => simp
  | cons y l ih =>
    rw [List.foldl_cons]
    by_cases h : seniorityKey y < seniorityKey b
    · rw [show pickMin b y = y from by rw [pickMin, if_pos h]]
      exact List.mem_cons_of_mem b (ih y)
    · rw [show pickMin b y = b from by rw [pickMin, if_neg h]]
      rcases List.mem_cons.1 (ih b) with h1 | h1
      · rw [h1]
        exact List.mem_cons_self b (y :: l)
      · exact List.mem_cons_of_mem b (List.mem_cons_of_mem y h1)

theorem foldl_pickMin_le (b : Member) (l : List Member) :
    ∀ x ∈ b :: l, seniorityKey (l.foldl pickMin b) ≤ seniorityKey x := by
  induction l generalizing b with
  | nil =>
    intro x hx
    rcases List.mem_cons.1 hx with h1 | h1
    · rw [h1]
      exact le_refl _
    · exact absurd h1 (List.not_mem_nil x)
  | cons y l ih =>
    intro x hx
    rw [List.foldl_cons]
    by_cases h : seniorityKey y < seniorityKey b
    · rw [show pickMin b y = y from by rw [pickMin, if_pos h]]
      rcases List.mem_cons.1 hx with h1 | h1
      · rw [h1]
        exact le_trans (ih y y (List.mem_cons_self y l)) (le_of_lt h)
      · exact ih y x h1
    · rw [show pickMin b y = b from by rw [pickMin, if_neg h]]
      rcases List.mem_cons.1 hx with h1 | h1
      · rw [h1]
        exact ih b b (List.mem_cons_self b l)
      · rcases List.mem_cons.1 h1 with h2 | h2
        · rw [h2]
          exact le_trans (ih b b (List.mem_cons_self b l)) (not_lt.1 h)
        · exact ih b x (List.mem_cons_of_mem b h2)

theorem minByKey_mem (l : List Member) (b : Member) (h : minByKey l = some b) :
    b ∈ l := by
  cases l with
  | nil => exact absurd h (by simp [minByKey])
  | cons m rest =>
    rw [minByKey] at h
    exact (Option.some_inj.1 h) ▸ foldl_pickMin_mem m rest

theorem minByKey_le (l : List Member) (b : Member) (h : minByKey l = some b) :
    ∀ x ∈ l, seniorityKey b ≤ seniorityKey x := by
  cases l with
  | nil => simp
  | cons m rest =>
    rw [minByKey] at h
    exact (Option.some_inj.1 h) ▸ foldl_pickMin_le m rest

theorem minByKey_isSome (l : List Member) (h : l ≠ []) : (minByKey l).isSome := by
  cases l with
  | nil => exact absurd rfl h
  | cons m rest => simp [minByKey]

/-! ### Claim C7 -/

/-- Counterexample to claim C7 as stated: the Live Presence Set is non-empty
after removing the departing member (it contains `"X"`), but the one registry
member is not among those present, so `find_most_senior_in_shop` yields no
recipient at all — there is no "handle of the most senior member currently
present" to return. -/
theorem c7_counterexample :
    find_most_senior_in_shop [⟨"U3", "C", "c3", some 1, ""⟩] {"X"} "B" = none := by
  decide

/-- Amended claim C7: when at least one *registry-known* member other than the
departing one is present, the recipient is the slack id of the candidate with
the minimal `(seniority, name)` key — the most senior member present, ties on
rank broken lexicographically by member name (earliest registry entry on
exact duplicates); with no registry-known present member, no recipient is
produced. -/
theorem c7_most_senior (registry : List Member) (cur : Finset String)
    (exclude_name : String)
    (hne : registry.filter
      (fun x => decide (x.member_name ∈ cur) && (x.member_name != exclude_name)) ≠ []) :
    ∃ best,
      minByKey (registry.filter
          (fun x => decide (x.member_name ∈ cur) && (x.member_name != exclude_name)))
        = some best
      ∧ find_most_senior_in_shop registry cur exclude_name = some best.slack_id
      ∧ best ∈ registry ∧ best.member_name ∈ cur ∧ best.member_name ≠ exclude_name
      ∧ ∀ x ∈ registry, x.member_name ∈ cur → x.member_name ≠ exclude_name →
          seniorityKey best ≤ seniorityKey x := by
  set cands := registry.filter
    (fun x => decide (x.member_name ∈ cur) && (x.member_name != exclude_name)) with hcands
  rcases Option.isSome_iff_exists.1 (minByKey_isSome cands hne) with ⟨best, hbest⟩
  have hmem := minByKey_mem cands best hbest
  have hmemf := List.mem_filter.1 hmem
  refine ⟨best, hbest, ?_, hmemf.1, ?_, ?_, ?_⟩
  · rw [find_most_senior_in_shop, ← hcands, hbest]
    rfl
  · have := hmemf.2
    simp only [Bool.and_eq_true, decide_eq_true_eq] at this
    exact this.1
  · have := hmemf.2
    simp only [Bool.and_eq_true, decide_eq_true_eq, bne_iff_ne] at this
    exact this.2
  · intro x hx hxc hxe
    exact minByKey_le cands best hbest x
      (List.mem_filter.2 ⟨hx, by simp [hxc, hxe]⟩)

/-- Witness for C7: A (rank 1) and B (rank 3) both present; B checks out
(removed from the set, excluded): the recipient is A's handle. -/
theorem c7_witness :
    find_most_senior_in_shop
      [⟨"UA", "A", "ca", some 1, ""⟩, ⟨"UB", "B", "cb", some 3, ""⟩] {"A"} "B"
      = some "UA" := by
  rcases c7_most_senior
      [⟨"UA", "A", "ca", some 1, ""⟩, ⟨"UB", "B", "cb", some 3, ""⟩] {"A"} "B"
      (by decide) with ⟨best, h1, h2, _⟩
  have hb : best = ⟨"UA", "A", "ca", some 1, ""⟩ :=
    Option.some_inj.1 ((by decide :
      minByKey ([⟨"UA", "A", "ca", some 1, ""⟩, ⟨"UB", "B", "cb", some 3, ""⟩].filter
        (fun x => decide (x.member_name ∈ ({"A"} : Finset String))
          && (x.member_name != "B")))
        = some ⟨"UA", "A", "ca", some 1, ""⟩).symm.trans h1).symm
  rw [h2, hb]

/-! ### Claim C3 -/

/-- Counterexample to claim C3 as stated: a check-out that leaves the
presence set non-empty but with no registry-known member present produces no
notification recipient at all — the chain stops at step (1) with an empty
candidate set instead of falling through to the co-presence/lead/admin
steps, even though the departing member has a lead registered. -/
theorem c3_counterexample :
    checkout_notify {"X"} [] (.good 0) 3600 ⟨"U1", "A", "c1", some 1, "UL"⟩ [] = none := by
  decide

/-- Amended claim C3: the escalation chain produces at most one recipient,
and exactly one whenever the presence set, if non-empty, still contains a
registry-known member other than the departing one; in the shop-empty case
it short-circuits in order co-presence → lead → admin, and in particular a
departing member who was alone, has a lead registered and no co-presence in
the lookback window escalates to that lead. -/
theorem find_notify_target_parsed (ci : TS) (now : Int) (m : Member)
    (registry : List Member) (rows : List LedgerRow) (start : Int)
    (hstart : parseTS ci = some start) :
    find_notify_target ci now m registry rows
      = (match minByKey (co_present_rows rows registry m.member_name start now) with
         | some best => best.slack_id
         | none => if stripStr m.lead_slack_id ≠ "" then stripStr m.lead_slack_id
                   else ADMIN_SLACK_ID) := by
  rw [find_notify_target, hstart]

theorem c3_escalation (cur : Finset String) (registry : List Member) (ci : TS)
    (now : Int) (m : Member) (rows : List LedgerRow) :
    ((cur.Nonempty → registry.filter
        (fun x => decide (x.member_name ∈ cur) && (x.member_name != m.member_name)) ≠ []) →
      (checkout_notify cur registry ci now m rows).isSome)
    ∧ (cur.Nonempty →
        checkout_notify cur registry ci now m rows
          = find_most_senior_in_shop registry cur m.member_name)
    ∧ (¬cur.Nonempty → ∀ start, parseTS ci = some start →
        ∀ best, minByKey (co_present_rows rows registry m.member_name start now)
            = some best →
        checkout_notify cur registry ci now m rows = some best.slack_id)
    ∧ (¬cur.Nonempty → ∀ start, parseTS ci = some start →
        co_present_rows rows registry m.member_name start now = [] →
        checkout_notify cur registry ci now m rows
          = some (if stripStr m.lead_slack_id ≠ "" then stripStr m.lead_slack_id
                  else ADMIN_SLACK_ID))
    ∧ (¬cur.Nonempty → parseTS ci = none →
        checkout_notify cur registry ci now m rows
          = some (if stripStr m.lead_slack_id ≠ "" then stripStr m.lead_slack_id
                  else ADMIN_SLACK_ID)) := by
  refine ⟨?_, ?_, ?_, ?_, ?_⟩
  · intro h
    rw [checkout_notify]
    by_cases hc : cur.Nonempty
    · rw [if_pos hc]
      rcases Option.isSome_iff_exists.1 (minByKey_isSome _ (h hc)) with ⟨b, hb⟩
      show ((minByKey _).map (fun x => x.slack_id)).isSome
      rw [hb]
      rfl
    · rw [if_neg hc]
      rfl
  · intro hc
    rw [checkout_notify, if_pos hc]
  · intro hc start hstart best hbest
    rw [checkout_notify, if_neg hc, find_notify_target_parsed ci now m registry rows
      start hstart, hbest]
  · intro hc start hstart hco
    rw [checkout_notify, if_neg hc, find_notify_target_parsed ci now m registry rows
      start hstart, hco]
    rfl
  · intro hc hci
    rw [checkout_notify, if_neg hc, find_notify_target, hci]

/-- Witness for C3: the alone-with-lead scenario — empty presence set after
departure, lead `"UL"` registered, no co-present session in the window: the
recipient is the lead. -/
theorem c3_witness :
    checkout_notify ∅ [] (.good 0) 3600 ⟨"U1", "A", "c1", some 1, "UL"⟩ [] = some "UL" := by
  have h := (c3_escalation ∅ [] (.good 0) 3600 ⟨"U1", "A", "c1", some 1, "UL"⟩ []).2.2.2.1
    (by simp) 0 rfl rfl
  rw [h, if_pos (by decide)]
  have : stripStr "UL" = "UL" := by decide
  rw [this]

/-! ### Claim C1: counterexample -/

/-- Counterexample to claim C1 as stated: starting from the reconciled empty
ledger, member A checks in at time 0 and member B checks in 13 hours later —
both commands succeed.  `CURRENT_MEMBERS` then holds A and B, but A's open
session is now older than the 12-hour staleness threshold, so the set of
members with an open, *non-stale* session is only B: live processing never
re-evaluates staleness, so the claimed equality fails. -/
theorem c1_counterexample :
    ((run ⟨[], (rebuild_current_members [] 0).current⟩
        [⟨⟨"UA", "A", "ca", some 1, ""⟩, [], 0, .cin⟩,
         ⟨⟨"UB", "B", "cb", some 2, ""⟩, [], 46800, .cin⟩]).current
      ≠ specLivePresence
          (run ⟨[], (rebuild_current_members [] 0).current⟩
            [⟨⟨"UA", "A", "ca", some 1, ""⟩, [], 0, .cin⟩,
             ⟨⟨"UB", "B", "cb", some 2, ""⟩, [], 46800, .cin⟩]).ledger 46800)
    ∧ (handle_check_in ⟨[], (rebuild_current_members [] 0).current⟩
        ⟨"UA", "A", "ca", some 1, ""⟩ 0).2 = .ok true
    ∧ (handle_check_in (handle_check_in ⟨[], (rebuild_current_members [] 0).current⟩
        ⟨"UA", "A", "ca", some 1, ""⟩ 0).1 ⟨"UB", "B", "cb", some 2, ""⟩ 46800).2
      = .ok false := by
  have hA : isStaleAt ⟨"ca", "A", .good 0, none, 0, "False"⟩ 46800 = true := by
    simp only [isStaleAt, ageQ, parseTS]
    exact decide_eq_true (by norm_num [STALE_SESSION_HOURS])
  have hB : isStaleAt ⟨"cb", "B", .good 46800, none, 0, "False"⟩ 46800 = false := by
    simp only [isStaleAt, ageQ, parseTS]
    exact decide_eq_false (by norm_num [STALE_SESSION_HOURS])
  refine ⟨?_, rfl, rfl⟩
  show (insert "B" {"A"} : Finset String)
      ≠ specLivePresence [⟨"ca", "A", .good 0, none, 0, "False"⟩,
          ⟨"cb", "B", .good 46800, none, 0, "False"⟩] 46800
  have hspec : specLivePresence [⟨"ca", "A", .good 0, none, 0, "False"⟩,
      ⟨"cb", "B", .good 46800, none, 0, "False"⟩] 46800 = {"B"} := by
    rw [specLivePresence, List.filter_cons, List.filter_cons, List.filter_nil]
    rw [show (isOpenB ⟨"ca", "A", .good 0, none, 0, "False"⟩
        && !isStaleAt ⟨"ca", "A", .good 0, none, 0, "False"⟩ 46800) = false from by
      rw [hA]; rfl]
    rw [show (isOpenB ⟨"cb", "B", .good 46800, none, 0, "False"⟩
        && !isStaleAt ⟨"cb", "B", .good 46800, none, 0, "False"⟩ 46800) = true from by
      rw [hB]; rfl]
    rfl
  rw [hspec]
  decide

/-! ### Claim C1: supporting lemmas -/

theorem closeLast_some_decomp (p : LedgerRow → Bool) (checkout_dt : Int)
    (l : List LedgerRow) (info : ℚ × TS) (l2 : List LedgerRow)
    (h : closeLast p checkout_dt l = some (info, l2)) :
    ∃ pre r post, l = pre ++ r :: post ∧ p r = true ∧ (∀ x ∈ post, p x = false)
      ∧ info = (hoursOf r checkout_dt, r.check_in)
      ∧ l2 = pre ++ closeRow r checkout_dt :: post := by
  induction l generalizing info l2 with
  | nil => exact absurd h (by simp [closeLast])
  | cons a l ih =>
    rw [closeLast] at h
    cases hc : closeLast p checkout_dt l with
    | some out =>
      rw [hc] at h
      cases out with
      | mk info2 l3 =>
        have h1 : info = info2 ∧ l2 = a :: l3 := by
          constructor <;> · injection h with h2; injection h2; simp_all
        rcases ih info2 l3 hc with ⟨pre, r, post, hd, hp, hpost, hinfo, hl⟩
        exact ⟨a :: pre, r, post, by rw [List.cons_append, hd], hp, hpost,
          h1.1 ▸ hinfo, by rw [h1.2, hl, List.cons_append]⟩
    | none =>
      rw [hc] at h
      by_cases hp : p a = true
      · rw [if_pos hp] at h
        have h1 : info = (hoursOf a checkout_dt, a.check_in)
            ∧ l2 = closeRow a checkout_dt :: l := by
          constructor <;> · injection h with h2; injection h2; simp_all
        exact ⟨[], a, l, rfl, hp, (closeLast_eq_none_iff p checkout_dt l).1 hc,
          h1.1, h1.2⟩
      · rw [if_neg (by simp [Bool.not_eq_true] at hp; simp [hp])] at h
        exact absurd h (by simp)

theorem close_open_session_cases (rows : List LedgerRow)
    (card_uid member_name : String) (checkout_dt : Int) :
    (close_open_session rows card_uid member_name checkout_dt = (none, rows)
      ∧ ∀ r ∈ rows, r.check_out = none →
          r.card_uid ≠ card_uid ∧ normName r.member_name ≠ normName member_name)
    ∨ (∃ pre r post, rows = pre ++ r :: post ∧ r.check_out = none
        ∧ (r.card_uid = card_uid ∨ normName r.member_name = normName member_name)
        ∧ close_open_session rows card_uid member_name checkout_dt
            = (some (hoursOf r checkout_dt, r.check_in),
               pre ++ closeRow r checkout_dt :: post)) := by
  cases hc : closeLast (byCard card_uid) checkout_dt rows with
  | some out =>
    cases out with
    | mk info l2 =>
      rcases closeLast_some_decomp _ _ _ _ _ hc with ⟨pre, r, post, hd, hp, _, hinfo, hl⟩
      refine Or.inr ⟨pre, r, post, hd, ((byCard_eq_true_iff _ _).1 hp).2,
        Or.inl ((byCard_eq_true_iff _ _).1 hp).1, ?_⟩
      rw [close_open_session, hc, hinfo, hl]
  | none =>
    cases hn : closeLast (byName member_name) checkout_dt rows with
    | some out =>
      cases out with
      | mk info l2 =>
        rcases closeLast_some_decomp _ _ _ _ _ hn with ⟨pre, r, post, hd, hp, _, hinfo, hl⟩
        refine Or.inr ⟨pre, r, post, hd, ((byName_eq_true_iff _ _).1 hp).2,
          Or.inr ((byName_eq_true_iff _ _).1 hp).1, ?_⟩
        rw [close_open_session, hc, hn, hinfo, hl]
    | none =>
      refine Or.inl ⟨by rw [close_open_session, hc, hn], ?_⟩
      intro r hr ho
      exact ⟨(byCard_eq_false_iff _ _).1 ((closeLast_eq_none_iff _ _ _).1 hc r hr) ho,
        (byName_eq_false_iff _ _).1 ((closeLast_eq_none_iff _ _ _).1 hn r hr) ho⟩

theorem mem_openNames (n : String) (rows : List LedgerRow) :
    n ∈ openNames rows ↔ ∃ r, r ∈ rows ∧ r.check_out = none ∧ r.member_name = n := by
  simp [openNames, isOpenB, Option.isNone_iff_eq_none, and_assoc]

theorem openNames_append (a b : List LedgerRow) :
    openNames (a ++ b) = openNames a ∪ openNames b := by
  simp [openNames, List.filter_append]

theorem openNames_cons_open (r : LedgerRow) (rows : List LedgerRow)
    (h : r.check_out = none) :
    openNames (r :: rows) = insert r.member_name (openNames rows) := by
  simp [openNames, List.filter_cons, isOpenB, h]

theorem openNames_cons_closed (r : LedgerRow) (rows : List LedgerRow)
    (h : isOpenB r = false) :
    openNames (r :: rows) = openNames rows := by
  simp [openNames, List.filter_cons, h]

theorem openNames_close (pre : List LedgerRow) (r : LedgerRow)
    (post : List LedgerRow) (checkout_dt : Int) (hopen : r.check_out = none)
    (hnodup : ((pre ++ r :: post).filter isOpenB).Pairwise
      (fun a b => a.member_name ≠ b.member_name)) :
    openNames (pre ++ closeRow r checkout_dt :: post)
      = (openNames (pre ++ r :: post)).erase r.member_name := by
  have hob : isOpenB r = true := by simp [isOpenB, hopen]
  have hfil : (pre ++ r :: post).filter isOpenB
      = pre.filter isOpenB ++ r :: post.filter isOpenB := by
    simp [List.filter_append, List.filter_cons, hob]
  rw [hfil] at hnodup
  rcases List.pairwise_append.1 hnodup with ⟨_, hrpost, hcross⟩
  have hpre : ∀ x ∈ openNames pre, x ≠ r.member_name := by
    intro x hx
    rcases (mem_openNames x pre).1 hx with ⟨a, ha, hao, han⟩
    rw [← han]
    exact hcross a (List.mem_filter.2 ⟨ha, by simp [isOpenB, hao]⟩) r
      (List.mem_cons_self r _)
  have hpost : ∀ x ∈ openNames post, x ≠ r.member_name := by
    intro x hx
    rcases (mem_openNames x post).1 hx with ⟨a, ha, hao, han⟩
    rw [← han]
    exact fun hax => (List.pairwise_cons.1 hrpost).1 a
      (List.mem_filter.2 ⟨ha, by simp [isOpenB, hao]⟩) hax.symm
  have hclosed : isOpenB (closeRow r checkout_dt) = false := by
    simp [isOpenB, closeRow]
  rw [openNames_append, openNames_cons_closed _ _ hclosed,
    openNames_append, openNames_cons_open _ _ hopen]
  ext x
  simp only [Finset.mem_union, Finset.mem_erase, Finset.mem_insert]
  constructor
  · intro hx
    rcases hx with hx | hx
    · exact ⟨hpre x hx, Or.inl hx⟩
    · exact ⟨hpost x hx, Or.inr (Or.inr hx)⟩
  · intro hx
    rcases hx with ⟨hne, hx | hx | hx⟩
    · exact Or.inl hx
    · exact absurd hx hne
    · exact Or.inr hx

theorem sdiff_erase_of_not_mem (s t : Finset String) (a : String) (ha : a ∉ s) :
    s \ t = s \ t.erase a := by
  ext x
  simp only [Finset.mem_sdiff, Finset.mem_erase]
  constructor
  · rintro ⟨hxs, hxt⟩
    exact ⟨hxs, fun h => hxt h.2⟩
  · rintro ⟨hxs, hxt⟩
    refine ⟨hxs, fun h => hxt ⟨?_, h⟩⟩
    rintro rfl
    exact ha hxs

theorem insert_sdiff_of_not_mem' (s t : Finset String) (a : String) (ha : a ∉ t) :
    insert a (s \ t) = insert a s \ t := by
  ext x
  simp only [Finset.mem_insert, Finset.mem_sdiff]
  constructor
  · rintro (rfl | ⟨h1, h2⟩)
    · exact ⟨Or.inl rfl, ha⟩
    · exact ⟨Or.inr h1, h2⟩
  · rintro ⟨rfl | h1, h2⟩
    · exact Or.inl rfl
    · exact Or.inr ⟨h1, h2⟩

theorem erase_sdiff_erase (s t : Finset String) (a : String) :
    (s \ t).erase a = s.erase a \ t.erase a := by
  ext x
  simp only [Finset.mem_erase, Finset.mem_sdiff]
  tauto

theorem checkin_inv (cardOf : String → String) (U : Set String) (st : BotState)
    (E : Finset String) (m : Member) (now : Int)
    (hev1 : m.card_uid = cardOf m.member_name)
    (hev2 : stripStr m.member_name = m.member_name)
    (hev3 : m.member_name ∈ U)
    (hinv : InvC1 cardOf U st E) :
    InvC1 cardOf U (handle_check_in st m now).1 E := by
  by_cases hb : (get_open_session st.ledger m.card_uid).isSome ∨ m.member_name ∈ st.current
  · rw [handle_check_in, if_pos hb]
    exact hinv
  · rw [handle_check_in, if_neg hb]
    rcases not_or.1 hb with ⟨hno, _⟩
    have hnotopen : m.member_name ∉ openNames st.ledger := by
      intro hmem
      rcases (mem_openNames _ _).1 hmem with ⟨r, hr, hro, hrn⟩
      apply hno
      rw [get_open_session_isSome_iff]
      exact ⟨r, hr, by rw [hinv.rows_ok.cards r hr hro, hrn, ← hev1], hro⟩
    have hnotE : m.member_name ∉ E := fun h => hnotopen (hinv.E_sub h)
    have hon : openNames (st.ledger ++ [newSessionRow m.card_uid m.member_name now])
        = insert m.member_name (openNames st.ledger) := by
      rw [openNames_append,
        show openNames [newSessionRow m.card_uid m.member_name now]
          = {m.member_name} from by simp [openNames, isOpenB, newSessionRow]]
      ext x
      simp only [Finset.mem_union, Finset.mem_insert, Finset.mem_singleton]
      tauto
    refine ⟨?_, ?_, ?_, ?_, ?_, ?_⟩
    · show insert m.member_name st.current = _
      rw [hon, hinv.cur_eq, insert_sdiff_of_not_mem' _ _ _ hnotE]
    · show E ⊆ _
      rw [hon]
      exact hinv.E_sub.trans (Finset.subset_insert _ _)
    · intro r hr hro
      rcases List.mem_append.1 hr with h | h
      · exact hinv.rows_ok.cards r h hro
      · rw [List.mem_singleton.1 h, newSessionRow]
        exact hev1
    · intro r hr hro
      rcases List.mem_append.1 hr with h | h
      · exact hinv.rows_ok.stripped r h hro
      · rw [List.mem_singleton.1 h, newSessionRow]
        exact hev2
    · intro r hr hro
      rcases List.mem_append.1 hr with h | h
      · exact hinv.rows_ok.inU r h hro
      · rw [List.mem_singleton.1 h, newSessionRow]
        exact hev3
    · rw [List.filter_append,
        show List.filter isOpenB [newSessionRow m.card_uid m.member_name now]
          = [newSessionRow m.card_uid m.member_name now] from by
            simp [isOpenB, newSessionRow]]
      refine List.pairwise_append.2 ⟨hinv.rows_ok.nodup, List.pairwise_singleton _ _, ?_⟩
      intro a ha b hb
      rw [List.mem_singleton.1 hb, newSessionRow]
      intro hab
      apply hnotopen
      rcases List.mem_filter.1 ha with ⟨hal, hao⟩
      exact (mem_openNames _ _).2 ⟨a, hal,
        by simpa [isOpenB, Option.isNone_iff_eq_none] using hao, hab⟩

theorem checkout_inv (cardOf : String → String) (U : Set String)
    (hnormInj : ∀ a ∈ U, ∀ b ∈ U, normName a = normName b → a = b)
    (hcardInj : ∀ a ∈ U, ∀ b ∈ U, cardOf a = cardOf b → a = b)
    (st : BotState) (E : Finset String) (m : Member) (now : Int)
    (registry : List Member)
    (hev1 : m.card_uid = cardOf m.member_name)
    (hev3 : m.member_name ∈ U)
    (hinv : InvC1 cardOf U st E) :
    InvC1 cardOf U (handle_check_out st m now registry).state
      (E.erase m.member_name) := by
  rcases close_open_session_cases st.ledger m.card_uid m.member_name now with
    ⟨hclose, hnone⟩ | ⟨pre, r, post, hd, hopen, hmatch, hclose⟩
  · have hnotopen : m.member_name ∉ openNames st.ledger := by
      intro hmem
      rcases (mem_openNames _ _).1 hmem with ⟨r, hr, hro, hrn⟩
      exact (hnone r hr hro).2 (by rw [hrn])
    have hnotcur : m.member_name ∉ st.current := by
      rw [hinv.cur_eq]
      exact fun h => hnotopen (Finset.mem_sdiff.1 h).1
    simp only [handle_check_out, hclose, if_neg hnotcur]
    exact ⟨by rw [hinv.cur_eq, ← sdiff_erase_of_not_mem _ _ _ hnotopen],
      (Finset.erase_subset _ _).trans hinv.E_sub, hinv.rows_ok⟩
  · have hrmem : r ∈ st.ledger := by
      rw [hd]
      exact List.mem_append_right pre (List.mem_cons_self r post)
    have hrn : r.member_name = m.member_name := by
      rcases hmatch with hcard | hname
      · refine hcardInj r.member_name (hinv.rows_ok.inU r hrmem hopen)
          m.member_name hev3 ?_
        rw [← hinv.rows_ok.cards r hrmem hopen, hcard, hev1]
      · exact hnormInj r.member_name (hinv.rows_ok.inU r hrmem hopen)
          m.member_name hev3 hname
    have hopenN : openNames (pre ++ closeRow r now :: post)
        = (openNames st.ledger).erase m.member_name := by
      rw [hd, openNames_close pre r post now hopen (by rw [← hd]; exact hinv.rows_ok.nodup),
        hrn]
    simp only [handle_check_out, hclose]
    refine ⟨?_, ?_, ?_, ?_, ?_, ?_⟩
    · show st.current.erase m.member_name = _
      rw [hopenN, hinv.cur_eq, erase_sdiff_erase]
    · show E.erase m.member_name ⊆ _
      rw [hopenN]
      intro x hx
      rcases Finset.mem_erase.1 hx with ⟨hne, hxe⟩
      exact Finset.mem_erase.2 ⟨hne, hinv.E_sub hxe⟩
    · intro x hx hxo
      rcases List.mem_append.1 hx with h | h
      · exact hinv.rows_ok.cards x (by rw [hd]; exact List.mem_append_left _ h) hxo
      · rcases List.mem_cons.1 h with h1 | h1
        · rw [h1] at hxo
          exact absurd hxo (by simp [closeRow])
        · exact hinv.rows_ok.cards x
            (by rw [hd]; exact List.mem_append_right _ (List.mem_cons_of_mem r h1)) hxo
    · intro x hx hxo
      rcases List.mem_append.1 hx with h | h
      · exact hinv.rows_ok.stripped x (by rw [hd]; exact List.mem_append_left _ h) hxo
      · rcases List.mem_cons.1 h with h1 | h1
        · rw [h1] at hxo
          exact absurd hxo (by simp [closeRow])
        · exact hinv.rows_ok.stripped x
            (by rw [hd]; exact List.mem_append_right _ (List.mem_cons_of_mem r h1)) hxo
    · intro x hx hxo
      rcases List.mem_append.1 hx with h | h
      · exact hinv.rows_ok.inU x (by rw [hd]; exact List.mem_append_left _ h) hxo
      · rcases List.mem_cons.1 h with h1 | h1
        · rw [h1] at hxo
          exact absurd hxo (by simp [closeRow])
        · exact hinv.rows_ok.inU x
            (by rw [hd]; exact List.mem_append_right _ (List.mem_cons_of_mem r h1)) hxo
    · have hnodup := hinv.rows_ok.nodup
      rw [hd] at hnodup
      have hfil0 : (pre ++ r :: post).filter isOpenB
          = pre.filter isOpenB ++ r :: post.filter isOpenB := by
        simp [List.filter_append, List.filter_cons, isOpenB, hopen]
      have hfil : (pre ++ closeRow r now :: post).filter isOpenB
          = pre.filter isOpenB ++ post.filter isOpenB := by
        simp [List.filter_append, List.filter_cons, isOpenB, closeRow]
      rw [hfil]
      rw [hfil0] at hnodup
      exact hnodup.sublist
        ((List.sublist_cons_self r (post.filter isOpenB)).append_left (pre.filter isOpenB))

theorem checkoutNames_cons_cin (e : Event) (evs : List Event) (h : e.cmd = .cin) :
    checkoutNames (e :: evs) = checkoutNames evs := by
  simp [checkoutNames, List.filter_cons, h]

theorem checkoutNames_cons_cout (e : Event) (evs : List Event) (h : e.cmd = .cout) :
    checkoutNames (e :: evs) = insert e.member.member_name (checkoutNames evs) := by
  simp [checkoutNames, List.filter_cons, h]

theorem run_inv (cardOf : String → String) (U : Set String)
    (hnormInj : ∀ a ∈ U, ∀ b ∈ U, normName a = normName b → a = b)
    (hcardInj : ∀ a ∈ U, ∀ b ∈ U, cardOf a = cardOf b → a = b) :
    ∀ (evs : List Event) (st : BotState) (E : Finset String),
      InvC1 cardOf U st E → (∀ e ∈ evs, EvOK cardOf U e) →
      InvC1 cardOf U (run st evs) (E \ checkoutNames evs) := by
  intro evs
  induction evs with
  | nil =>
    intro st E hinv _
    simpa [run, checkoutNames] using hinv
  | cons e evs ih =>
    intro st E hinv hevs
    have hek := hevs e (List.mem_cons_self e evs)
    have hrest : ∀ x ∈ evs, EvOK cardOf U x :=
      fun x hx => hevs x (List.mem_cons_of_mem e hx)
    rw [run, List.foldl_cons]
    cases hc : e.cmd with
    | cin =>
      have h1 : InvC1 cardOf U (step st e) E := by
        rw [step, hc]
        exact checkin_inv cardOf U st E e.member e.time hek.1 hek.2.1 hek.2.2 hinv
      have h2 := ih (step st e) E h1 hrest
      rw [checkoutNames_cons_cin e evs hc]
      exact h2
    | cout =>
      have h1 : InvC1 cardOf U (step st e) (E.erase e.member.member_name) := by
        rw [step, hc]
        exact checkout_inv cardOf U hnormInj hcardInj st E e.member e.time
          e.registry hek.1 hek.2.2 hinv
      have h2 := ih (step st e) _ h1 hrest
      rw [checkoutNames_cons_cout e evs hc]
      have hset : E \ insert e.member.member_name (checkoutNames evs)
          = (E.erase e.member.member_name) \ checkoutNames evs := by
        ext x
        simp only [Finset.mem_sdiff, Finset.mem_insert, Finset.mem_erase]
        tauto
      rw [hset]
      exact h2

theorem rebuildScan_distinct (now : Int) (l : List LedgerRow) (seen : Finset String)
    (htrim : ∀ r ∈ l, r.check_out = none → stripStr r.member_name = r.member_name)
    (hnd : (l.filter isOpenB).Pairwise (fun a b => a.member_name ≠ b.member_name))
    (hseen : ∀ r ∈ l, r.check_out = none → r.member_name ∉ seen) :
    (rebuildScan now l seen).1
        = (l.filter (fun r => isOpenB r && !isStaleAt r now)).map
            (fun r => r.member_name)
    ∧ (rebuildScan now l seen).2.1
        = (l.filter (fun r => isOpenB r && isStaleAt r now)).map
            (fun r => (r.member_name, r.check_in, round1 (ageQ r now))) := by
  induction l generalizing seen with
  | nil => simp [rebuildScan]
  | cons r rest ih =>
    have htrim' : ∀ x ∈ rest, x.check_out = none →
        stripStr x.member_name = x.member_name :=
      fun x hx => htrim x (List.mem_cons_of_mem r hx)
    by_cases hro : r.check_out = none
    · have hob : isOpenB r = true := by simp [isOpenB, hro]
      have hopen : r.check_out.isSome = false := by simp [hro]
      have hname : stripStr r.member_name = r.member_name :=
        htrim r (List.mem_cons_self r rest) hro
      have hs : stripStr r.member_name ∉ seen := by
        rw [hname]
        exact hseen r (List.mem_cons_self r rest) hro
      have hfil : (r :: rest).filter isOpenB = r :: rest.filter isOpenB := by
        simp [List.filter_cons, hob]
      rw [hfil] at hnd
      rcases List.pairwise_cons.1 hnd with ⟨hhead, hnd'⟩
      have hseen' : ∀ x ∈ rest, x.check_out = none →
          x.member_name ∉ insert (stripStr r.member_name) seen := by
        intro x hx hxo hmem
        rcases Finset.mem_insert.1 hmem with h | h
        · rw [hname] at h
          exact hhead x (List.mem_filter.2 ⟨hx, by simp [isOpenB, hxo]⟩) h.symm
        · exact hseen x (List.mem_cons_of_mem r hx) hxo h
      rcases ih (insert (stripStr r.member_name) seen) htrim' hnd' hseen' with ⟨h1, h2⟩
      rw [hname] at h1 h2
      by_cases hst : isStaleAt r now = true
      · rw [rebuildScan_cons_stale now r rest seen hopen hs hst]
        constructor
        · simp [List.filter_cons, hob, hst, hname, h1]
        · simp [List.filter_cons, hob, hst, hname, h1, h2]
      · have hst2 : isStaleAt r now = false := by simpa using hst
        rw [rebuildScan_cons_fresh now r rest seen hopen hs hst2]
        constructor
        · simp [List.filter_cons, hob, hst2, hname, h1, h2]
        · simp [List.filter_cons, hob, hst2, hname, h1, h2]
    · have hclosed : r.check_out.isSome = true := Option.ne_none_iff_isSome.1 hro
      have hob : isOpenB r = false := by
        simp [isOpenB, Option.isNone_iff_eq_none, ← Option.isSome_iff_ne_none, hclosed]
      rw [rebuildScan_cons_closed now r rest seen hclosed]
      have hnd' : (rest.filter isOpenB).Pairwise
          (fun a b => a.member_name ≠ b.member_name) := by
        rwa [List.filter_cons, if_neg (by simp [hob])] at hnd
      rcases ih seen htrim' hnd'
        (fun x hx => hseen x (List.mem_cons_of_mem r hx)) with ⟨h1, h2⟩
      constructor
      · simp [List.filter_cons, hob, h1]
      · simp [List.filter_cons, hob, h2]

theorem open_row_unique (rows : List LedgerRow)
    (hnd : (rows.filter isOpenB).Pairwise (fun a b => a.member_name ≠ b.member_name))
    (r1 r2 : LedgerRow) (h1 : r1 ∈ rows) (h2 : r2 ∈ rows)
    (ho1 : r1.check_out = none) (ho2 : r2.check_out = none)
    (hn : r1.member_name = r2.member_name) : r1 = r2 := by
  by_contra hne
  exact hnd.forall (fun a b h => h.symm)
    (List.mem_filter.2 ⟨h1, by simp [isOpenB, ho1]⟩)
    (List.mem_filter.2 ⟨h2, by simp [isOpenB, ho2]⟩) hne hn

theorem rebuild_base (cardOf : String → String) (U : Set String)
    (rows0 : List LedgerRow) (t0 : Int) (hok : OpenRowsOK cardOf U rows0) :
    (rebuild_current_members rows0 t0).current = specLivePresence rows0 t0
    ∧ InvC1 cardOf U ⟨rows0, (rebuild_current_members rows0 t0).current⟩
        (staleNameSet (rebuild_current_members rows0 t0).stale) := by
  have hfilrev : rows0.reverse.filter isOpenB = (rows0.filter isOpenB).reverse :=
    List.filter_reverse isOpenB rows0
  have hndrev : (rows0.reverse.filter isOpenB).Pairwise
      (fun a b => a.member_name ≠ b.member_name) := by
    rw [hfilrev, List.pairwise_reverse]
    exact hok.nodup.imp (fun h => h.symm)
  rcases rebuildScan_distinct t0 rows0.reverse ∅
    (fun r hr => hok.stripped r (List.mem_reverse.1 hr))
    hndrev (fun r _ _ => Finset.not_mem_empty _) with ⟨h1, h2⟩
  have hcur : (rebuild_current_members rows0 t0).current
      = specLivePresence rows0 t0 := by
    show (rebuildScan t0 rows0.reverse ∅).1.toFinset = _
    rw [h1, List.filter_reverse, List.map_reverse, List.toFinset_reverse]
    rfl
  have hstale : staleNameSet (rebuild_current_members rows0 t0).stale
      = ((rows0.filter (fun r => isOpenB r && isStaleAt r t0)).map
          (fun r => r.member_name)).toFinset := by
    show ((rebuildScan t0 rows0.reverse ∅).2.1.map (fun x => x.1)).toFinset = _
    rw [h2, List.filter_reverse, List.map_reverse, List.map_reverse,
      List.toFinset_reverse, List.map_map]
    rfl
  have hmem_spec : ∀ x, x ∈ specLivePresence rows0 t0 ↔
      ∃ r, r ∈ rows0 ∧ r.check_out = none ∧ isStaleAt r t0 = false
        ∧ r.member_name = x := by
    intro x
    simp [specLivePresence, isOpenB, Option.isNone_iff_eq_none, and_assoc]
  have hmem_stale : ∀ x, x ∈ staleNameSet (rebuild_current_members rows0 t0).stale ↔
      ∃ r, r ∈ rows0 ∧ r.check_out = none ∧ isStaleAt r t0 = true
        ∧ r.member_name = x := by
    intro x
    rw [hstale]
    simp [isOpenB, Option.isNone_iff_eq_none, and_assoc]
  refine ⟨hcur, ?_, ?_, hok⟩
  · show (rebuild_current_members rows0 t0).current = _
    rw [hcur]
    ext x
    rw [hmem_spec x, Finset.mem_sdiff, mem_openNames, hmem_stale x]
    constructor
    · rintro ⟨r, hr, hro, hrs, hrn⟩
      refine ⟨⟨r, hr, hro, hrn⟩, ?_⟩
      rintro ⟨r2, hr2, hro2, hrs2, hrn2⟩
      have := open_row_unique rows0 hok.nodup r r2 hr hr2 hro hro2
        (by rw [hrn, hrn2])
      rw [this, hrs2] at hrs
      exact absurd hrs (by simp)
    · rintro ⟨⟨r, hr, hro, hrn⟩, hnot⟩
      refine ⟨r, hr, hro, ?_, hrn⟩
      cases hst : isStaleAt r t0 with
      | false => rfl
      | true => exact absurd ⟨r, hr, hro, hst, hrn⟩ hnot
  · intro x hx
    rcases (hmem_stale x).1 hx with ⟨r, hr, hro, _, hrn⟩
    exact (mem_openNames x rows0).2 ⟨r, hr, hro, hrn⟩

/-- Amended claim C1: staleness is evaluated only at startup reconciliation,
never during live processing.  Immediately after reconciliation the presence
set equals the set of names with an open, non-stale session; after any
sequence of check-in/check-out commands it equals the set of names with an
open session minus those flagged stale at reconciliation that have not since
been the subject of a check-out.  Hypotheses: every open row and command
member carries a consistent stripped name and card (names and cards in the
universe `U` determine each other, and name normalisation is injective on
`U`), and open rows have pairwise-distinct names. -/
theorem c1_presence_invariant (cardOf : String → String) (U : Set String)
    (rows0 : List LedgerRow) (t0 : Int) (evs : List Event)
    (hok : OpenRowsOK cardOf U rows0)
    (hevs : ∀ e ∈ evs, EvOK cardOf U e)
    (hnormInj : ∀ a ∈ U, ∀ b ∈ U, normName a = normName b → a = b)
    (hcardInj : ∀ a ∈ U, ∀ b ∈ U, cardOf a = cardOf b → a = b) :
    (rebuild_current_members rows0 t0).current = specLivePresence rows0 t0
    ∧ (run ⟨rows0, (rebuild_current_members rows0 t0).current⟩ evs).current
        = openNames (run ⟨rows0, (rebuild_current_members rows0 t0).current⟩ evs).ledger
          \ (staleNameSet (rebuild_current_members rows0 t0).stale
             \ checkoutNames evs) := by
  rcases rebuild_base cardOf U rows0 t0 hok with ⟨hcur, hinv⟩
  exact ⟨hcur, (run_inv cardOf U hnormInj hcardInj evs _ _ hinv hevs).cur_eq⟩

/-- Witness for the amended C1: empty reconciled ledger, one successful
check-in; the presence set tracks the single open session. -/
theorem c1_witness :
    (rebuild_current_members [] 0).current = specLivePresence [] 0
    ∧ (run ⟨[], (rebuild_current_members [] 0).current⟩
          [⟨⟨"UA", "A", "ca", some 1, ""⟩, [], 0, .cin⟩]).current
        = openNames (run ⟨[], (rebuild_current_members [] 0).current⟩
            [⟨⟨"UA", "A", "ca", some 1, ""⟩, [], 0, .cin⟩]).ledger
          \ (staleNameSet (rebuild_current_members [] 0).stale
             \ checkoutNames [⟨⟨"UA", "A", "ca", some 1, ""⟩, [], 0, .cin⟩]) :=
  c1_presence_invariant (fun _ => "ca") {"A"} [] 0
    [⟨⟨"UA", "A", "ca", some 1, ""⟩, [], 0, .cin⟩]
    ⟨by simp, by simp, by simp, by simp⟩
    (by
      intro e he
      rw [List.mem_singleton.1 he]
      exact ⟨rfl, by decide, by simp⟩)
    (by
      intro a ha b hb _
      rw [Set.mem_singleton_iff.1 ha, Set.mem_singleton_iff.1 hb])
    (by
      intro a ha b hb _
      rw [Set.mem_singleton_iff.1 ha, Set.mem_singleton_iff.1 hb])

end ShopBot
